import Mathlib

/-!
Shallow embedding of the `gocurrent` stream-operator library and proofs of
its specified properties.

The Go code is modelled as follows: a Go channel's traffic is a Lean `List`
of the values delivered before the channel closes; a `nil` channel reference
is `Option.none`; goroutine worker loops become structurally recursive
functions over those lists; the nondeterministic interleaving of concurrent
producers is an explicit inductive relation.  Mutable per-operator state
(ownership flags, closed flags, the Reducer's pending collection) is passed
explicitly.
-/

namespace GoCurrent

/-! ## RunnerBase (runner.go)

`RunnerBase` holds a capacity-1 control channel, an `isRunning` flag, a
wait group and a stop sentinel.  For the lifecycle claims only two pieces of
state matter: whether the `controlChan` field is `nil` (it is set to `nil`
by `cleanup`) and the `isRunning` flag.  The wait group and the sentinel
value do not affect which branch the lifecycle methods take, so they are
not represented. -/

structure RunnerBase where
  /-- whether the `controlChan` field currently holds `nil` -/
  controlChanIsNil : Bool
  isRunning : Bool
deriving DecidableEq, Repr

/-- `NewRunnerBase`: fresh runner, control channel allocated, not yet started. -/
def NewRunnerBase : RunnerBase := { controlChanIsNil := false, isRunning := false }

/-- `RunnerBase.IsRunning`: returns the `isRunning` field. -/
def RunnerBase.IsRunning (r : RunnerBase) : Bool := r.isRunning

/-- `RunnerBase.start`: sets `isRunning` to true (and `wg.Add(1)`). -/
def RunnerBase.start (r : RunnerBase) : RunnerBase := { r with isRunning := true }

/-- `RunnerBase.cleanup`: closes the control channel and sets the field to `nil`
(and calls `wg.Done()`).  Run by the worker goroutine as it exits. -/
def RunnerBase.cleanup (r : RunnerBase) : RunnerBase := { r with controlChanIsNil := true }

/-- The observable behaviour of one call to `RunnerBase.Stop`. -/
inductive StopBehavior where
  /-- the guard `!r.IsRunning() && r.controlChan != nil` fired: return nil at once -/
  | returnsImmediately
  /-- sends the stop sentinel on the control channel, then waits on the wait group -/
  | signalsAndWaits
  /-- falls through the guard with `controlChan == nil`: the send
  `r.controlChan <- r.stopVal` is a send on a nil channel, which blocks forever -/
  | blocksForever
deriving DecidableEq, Repr

/-- `RunnerBase.Stop`, branch structure: early return when
`!r.IsRunning() && r.controlChan != nil`; otherwise it executes
`r.controlChan <- r.stopVal` (which on a nil channel blocks forever),
sets `isRunning = false` and waits. -/
def RunnerBase.stopBehavior (r : RunnerBase) : StopBehavior :=
  if !r.IsRunning && !r.controlChanIsNil then .returnsImmediately
  else if r.controlChanIsNil then .blocksForever
  else .signalsAndWaits

/-- The state update `Stop` performs on the non-early-return path
(`r.isRunning = false`); the worker then runs `cleanup` before `wg.Wait()`
returns. -/
def RunnerBase.stopUpdate (r : RunnerBase) : RunnerBase := { r with isRunning := false }

/-- State of any runner-based operator right after its constructor
(constructors call `start()` before returning). -/
def RunnerBase.constructed : RunnerBase := NewRunnerBase.start

/-- State after one completed `Stop()`: `Stop` cleared `isRunning`, and the
worker's `cleanup` (sequenced before `wg.Wait()` returned) closed and
nil-ed the control channel. -/
def RunnerBase.afterFirstStop : RunnerBase := RunnerBase.constructed.stopUpdate.cleanup

/-! ## Mapper / Pipe (mapper.go)

`Mapper.start` runs a loop that receives from the input channel, applies
`MapFunc` yielding `(outval, skip, stop)`, sends `outval` downstream unless
`skip`, and exits when `stop` is true or the input channel is closed.
Modelled as a function from the list of values the input channel delivers
(before closing) to the list of values sent on the output channel. -/

/-- `idMapperFunc`: identity transform, never skips, never stops. -/
def idMapperFunc (input : α) : α × Bool × Bool := (input, false, false)

/-- The `Mapper.start` worker loop over the input channel's traffic. -/
def Mapper.start (f : I → O × Bool × Bool) : List I → List O
  | [] => []
  | x :: xs =>
    let r := f x
    (if r.2.1 then [] else [r.1]) ++ (if r.2.2 then [] else Mapper.start f xs)

/-- `NewPipe` instantiates a Mapper with `idMapperFunc`: it forwards its
input traffic verbatim. -/
theorem Mapper.start_idMapperFunc (l : List α) :
    Mapper.start idMapperFunc l = l := by
  induction l with
  | nil => rfl
  | cons x xs ih => simp [Mapper.start, idMapperFunc, ih]

/-- C1: the claim states that a second `Stop()` after a completed first
`Stop()` returns immediately.  The code disagrees: after the first `Stop()`
completes, `cleanup` has set `controlChan` to `nil`, so the guard
`!r.IsRunning() && r.controlChan != nil` is false and `Stop` proceeds to
send on the nil control channel — a send that blocks forever.  This theorem
evaluates the model at that failing state: the first `Stop` signals and
waits normally, but the second blocks forever instead of returning
immediately. -/
theorem runnerBase_second_stop_blocks :
    RunnerBase.constructed.stopBehavior = StopBehavior.signalsAndWaits ∧
    RunnerBase.afterFirstStop.stopBehavior = StopBehavior.blocksForever ∧
    RunnerBase.afterFirstStop.stopBehavior ≠ StopBehavior.returnsImmediately := by
  refine ⟨rfl, rfl, ?_⟩
  decide

/-- C4: the Mapper applies `f` to each received value; un-skipped outputs are
sent downstream in order; `stop = true` terminates immediately (remaining
input is ignored); a closed (exhausted) input terminates the loop; and the
doubling mapper over `[1,2,3]` outputs exactly `[2,4,6]`. -/
theorem mapper_transform_skip_stop :
    (Mapper.start (fun i => (i * 2, false, false)) [1, 2, 3] = [2, 4, 6]) ∧
    (∀ l : List Nat, Mapper.start (fun i => (i * 2, false, false)) l = l.map (· * 2)) ∧
    (∀ (I O : Type) (f : I → O × Bool × Bool), Mapper.start f [] = []) ∧
    (∀ (I O : Type) (f : I → O × Bool × Bool) (x : I) (xs : List I),
      (f x).2.2 = true → Mapper.start f (x :: xs) = Mapper.start f [x]) := by
  refine ⟨by decide, ?_, fun I O f => rfl, ?_⟩
  · intro l
    induction l with
    | nil => rfl
    | cons x xs ih => simp [Mapper.start, ih]
  · intro I O f x xs hstop
    simp [Mapper.start, hstop]

/-- Witness for `mapper_transform_skip_stop`: the constantly-stopping mapper
over `1 :: [2, 3]` behaves as over `[1]` alone. -/
theorem mapper_transform_skip_stop_witness :
    ((fun i : Nat => (i, false, true)) 1).2.2 = true ∧
    Mapper.start (fun i : Nat => (i, false, true)) (1 :: [2, 3]) =
      Mapper.start (fun i : Nat => (i, false, true)) [1] :=
  ⟨rfl, mapper_transform_skip_stop.2.2.2 Nat Nat (fun i => (i, false, true)) 1 [2, 3] rfl⟩

/-! ## Reducer (reducer.go)

The Reducer's accumulation/flush logic is pure: `pendingEvents : C` is the
worker-private collection, `CollectFunc : T → C → C × Bool` combines an
input (the Bool requests an immediate flush), `ReduceFunc : C → U` produces
the emitted value.  `var zero C` (the Go zero value of `C`) is carried as
the field `zeroC`. -/

/-- `IDFunc` returns its input unchanged. -/
def IDFunc (input : α) : α := input

structure Reducer (T C U : Type) where
  CollectFunc : T → C → C × Bool
  ReduceFunc : C → U
  /-- the Go zero value of the collection type `C` (`var zero C`) -/
  zeroC : C

/-- `Reducer.Flush`: applies `ReduceFunc` to `pendingEvents`, resets
`pendingEvents` to the zero value of `C`, and sends the reduced value on
the output channel.  Returned as (value sent, new pendingEvents). -/
def Reducer.Flush (r : Reducer T C U) (pendingEvents : C) : U × C :=
  (r.ReduceFunc pendingEvents, r.zeroC)

/-- The `case event := <-fo.inputChan` branch of the `Reducer.start` worker
loop: combine via `CollectFunc`; if it signalled "flush now", flush
immediately.  Returned as (new pendingEvents, values sent on the output
channel by this step). -/
def Reducer.onInput (r : Reducer T C U) (pendingEvents : C) (event : T) : C × List U :=
  let res := r.CollectFunc event pendingEvents
  if res.2 then
    let f := r.Flush res.1
    (f.2, [f.1])
  else
    (res.1, [])

/-- The worker loop consuming a list of input events (no timer ticks, no
stop command in between). -/
def Reducer.runInputs (r : Reducer T C U) : C → List T → C × List U
  | c, [] => (c, [])
  | c, t :: ts =>
    let s := r.onInput c t
    let rest := r.runInputs s.1 ts
    (rest.1, s.2 ++ rest.2)

/-- `NewIDReducer`: collect = append to a list, never requesting an
immediate flush; reduce = `IDFunc`; the zero value of `[]T` is the empty
list. -/
def NewIDReducer (T : Type) : Reducer T (List T) (List T) where
  CollectFunc := fun input collection => (collection ++ [input], false)
  ReduceFunc := IDFunc
  zeroC := []

/-- The reducer of `TestReducerImmediateFlushOnEveryItem`: collect = append
to a list, always requesting an immediate flush; reduce = `IDFunc`. -/
def alwaysFlushReducer (T : Type) : Reducer T (List T) (List T) where
  CollectFunc := fun input collection => (collection ++ [input], true)
  ReduceFunc := IDFunc
  zeroC := []

/-- C5: every flush — `Flush` is the single function used by the manual,
timer-driven and combine-triggered paths — emits `ReduceFunc` of the
currently accumulated collection and resets the collection to its zero
value, even when nothing has accumulated; for the ID reducer the flush of
an accumulated list emits exactly that list, so an empty flush emits a
batch of length 0. -/
theorem reducer_flush_reduces_and_resets :
    (∀ (T C U : Type) (r : Reducer T C U) (c : C),
      r.Flush c = (r.ReduceFunc c, r.zeroC)) ∧
    (∀ (T : Type) (l : List T), (NewIDReducer T).Flush l = (l, [])) ∧
    (∀ T : Type, ((NewIDReducer T).Flush []).1.length = 0) :=
  ⟨fun _ _ _ _ _ => rfl, fun _ _ => rfl, fun _ => rfl⟩

/-- C6: when `CollectFunc` returns `true`, the worker flushes immediately
after combining that input — the batch is emitted before any further input
is processed and the pending collection resets; consequently a reducer
whose combine function always signals flush emits, for input list `l`,
exactly one singleton batch per input value, in input order. -/
theorem reducer_always_flush_one_batch_per_input :
    (∀ (T C U : Type) (r : Reducer T C U) (c : C) (t : T),
      (r.CollectFunc t c).2 = true →
      r.onInput c t = (r.zeroC, [r.ReduceFunc (r.CollectFunc t c).1])) ∧
    (∀ (T : Type) (l : List T),
      (alwaysFlushReducer T).runInputs [] l = ([], l.map (fun t => [t]))) := by
  constructor
  · intro T C U r c t h
    simp [Reducer.onInput, Reducer.Flush, h]
  · intro T l
    induction l with
    | nil => rfl
    | cons t ts ih =>
      simp only [alwaysFlushReducer] at ih ⊢
      simp [Reducer.runInputs, Reducer.onInput, Reducer.Flush, IDFunc, ih]

/-- Witness for `reducer_always_flush_one_batch_per_input`: combining `5`
into the empty collection of the always-flush reducer emits the singleton
batch `[5]` at once. -/
theorem reducer_always_flush_one_batch_per_input_witness :
    ((alwaysFlushReducer Nat).CollectFunc 5 []).2 = true ∧
    (alwaysFlushReducer Nat).onInput [] 5 =
      ((alwaysFlushReducer Nat).zeroC,
       [(alwaysFlushReducer Nat).ReduceFunc ((alwaysFlushReducer Nat).CollectFunc 5 []).1]) :=
  ⟨rfl, reducer_always_flush_one_batch_per_input.1 Nat (List Nat) (List Nat)
    (alwaysFlushReducer Nat) [] 5 rfl⟩

/-! ## Channel ownership at termination (reducer.go / fanin.go)

The channel-closing behaviour of the termination paths.  A channel is
represented by its `closed` flag; `inputChanIsNil` tracks whether the
Reducer's `inputChan` field has been set to `nil`. -/

structure ReducerChans where
  selfOwnIn : Bool
  selfOwnOut : Bool
  /-- whether the `inputChan` field holds `nil` -/
  inputChanIsNil : Bool
  inputChanClosed : Bool
  outputChanClosed : Bool
deriving DecidableEq, Repr

/-- `NewReducer`: `selfOwnIn`/`selfOwnOut` default to true and are cleared
by the `WithInputChan`/`WithOutputChan` options; either way, after the
constructor both channels exist (non-nil, open). -/
def NewReducerChans (selfOwnIn selfOwnOut : Bool) : ReducerChans :=
  { selfOwnIn := selfOwnIn
    selfOwnOut := selfOwnOut
    inputChanIsNil := false
    inputChanClosed := false
    outputChanClosed := false }

/-- The deferred cleanup of the `Reducer.start` worker: stops the ticker,
and if `selfOwnIn` closes `inputChan` and sets the field to `nil`.  (It
touches no other channel.) -/
def ReducerChans.cleanup (r : ReducerChans) : ReducerChans :=
  if r.selfOwnIn then { r with inputChanClosed := true, inputChanIsNil := true } else r

/-- `Reducer.IsRunning` (component adapters): "Reducer doesn't have an
isRunning flag, check if channels are not nil". -/
def ReducerChans.IsRunning (r : ReducerChans) : Bool := !r.inputChanIsNil

structure FanInChans where
  selfOwnOut : Bool
  outChanClosed : Bool
deriving DecidableEq, Repr

/-- `NewFanIn`: if the caller passes `nil` for `outChan` a fresh channel is
created and `selfOwnOut` is set. -/
def NewFanInChans (outChanProvided : Bool) : FanInChans :=
  { selfOwnOut := !outChanProvided, outChanClosed := false }

/-- `FanIn.cleanup`: stops all input pipes, then closes `outChan` only if
`selfOwnOut`. -/
def FanInChans.cleanup (fi : FanInChans) : FanInChans :=
  if fi.selfOwnOut then { fi with outChanClosed := true } else fi

/-- C2: the claim requires every owned channel to be closed exactly once at
termination.  FanIn conforms: its cleanup closes the merged output channel
iff FanIn owns it.  The Reducer does not: its cleanup closes the owned
input channel (and never a borrowed one), but it never closes its owned
output channel — for a Reducer constructed without `WithOutputChan`
(`selfOwnOut = true`) the owned output channel is still open after
termination, contradicting the claim and `Stop`'s own doc comment
("closes all channels it owns"). -/
theorem owned_channel_close_at_cleanup :
    (∀ b : Bool, ((NewFanInChans b).cleanup).outChanClosed = !b) ∧
    (∀ b : Bool, ((NewReducerChans true b).cleanup).inputChanClosed = true) ∧
    (∀ b : Bool, ((NewReducerChans false b).cleanup).inputChanClosed = false) ∧
    ((NewReducerChans true true).cleanup).outputChanClosed = false := by
  refine ⟨?_, ?_, ?_, rfl⟩ <;> decide

/-- C8 counterexample: the claim says `IsRunning()` is false once the
operator has terminated, for the Reducer regardless of input-channel
ownership.  For a Reducer with a borrowed input channel
(`WithInputChan`, `selfOwnIn = false`), the worker's cleanup leaves
`inputChan` non-nil, so after termination `IsRunning()` still returns
true. -/
theorem reducer_isRunning_borrowed_input_after_stop :
    ¬ (((NewReducerChans false true).cleanup).IsRunning = false) := by
  decide

/-- C8 amended: `IsRunning()` is true from construction for every operator;
for operators on `RunnerBase` it is false once `Stop()` has returned; the
Reducer (whose `IsRunning` tests `inputChan != nil`) reports false after
termination when its input channel is owned, but keeps reporting true when
the input channel is borrowed, since cleanup only nils an owned input. -/
theorem isRunning_lifecycle_amended :
    (RunnerBase.constructed.IsRunning = true) ∧
    (RunnerBase.afterFirstStop.IsRunning = false) ∧
    (∀ a b : Bool, (NewReducerChans a b).IsRunning = true) ∧
    (∀ b : Bool, ((NewReducerChans true b).cleanup).IsRunning = false) ∧
    (∀ b : Bool, ((NewReducerChans false b).cleanup).IsRunning = true) := by
  refine ⟨rfl, rfl, ?_, ?_, ?_⟩ <;> decide

/-! ## Reader (reader.go)

The Reader's read loop calls `rc.Read()` repeatedly.  For each result it
computes `timedOut` (true iff the error is a `net.Error` whose `Timeout()`
is true), emits `Message{Value, Error}` on `msgChannel` unless the error
timed out or matches `net.ErrClosed`, and on any non-timeout error sends
the error on `closedChan` and breaks out of the loop.

A Go `error` value is abstracted by the three predicates the code consults
on it; `none` is the nil error. -/

structure goError where
  /-- whether the error implements `net.Error` -/
  isNetErr : Bool
  /-- the value of `nerr.Timeout()` when `isNetErr` -/
  timeoutResult : Bool
  /-- the value of `errors.Is(err, net.ErrClosed)` -/
  isErrClosed : Bool
deriving DecidableEq, Repr

/-- `timedOut` as computed by the read loop: false for a nil error, else
`nerr.Timeout()` when the error is a `net.Error`, else false. -/
def errTimedOut : Option goError → Bool
  | none => false
  | some g => g.isNetErr && g.timeoutResult

/-- `errors.Is(err, net.ErrClosed)` on an optional error. -/
def errIsClosed : Option goError → Bool
  | none => false
  | some g => g.isErrClosed

/-- `Message[T]` (common.go): value plus optional error.  (The `Source`
field is never set by the Reader and is omitted.) -/
structure Message (T : Type) where
  Value : T
  Error : Option goError
deriving DecidableEq, Repr

/-- The Reader's read loop over the list of `(value, error)` results that
successive `rc.Read()` calls return, while `msgChannel` is non-nil.
Returns the messages emitted on `msgChannel` and the error sent on
`closedChan` (`none` if the listed reads end without a terminal error). -/
def Reader.readLoop : List (R × Option goError) → List (Message R) × Option goError
  | [] => ([], none)
  | (newMessage, err) :: rest =>
    let timedOut := errTimedOut err
    let emitted : List (Message R) :=
      if !timedOut && !errIsClosed err then [⟨newMessage, err⟩] else []
    match err with
    | some g =>
      if timedOut then
        let r := Reader.readLoop rest
        (emitted ++ r.1, r.2)
      else
        (emitted, some g)
    | none =>
      let r := Reader.readLoop rest
      (emitted ++ r.1, r.2)

/-- C7 counterexample: the claim says every non-timeout read error is
reported via the `Error` field of the next emitted `Message`.  For an
error matching `net.ErrClosed` (not a timeout), the Reader shuts down and
signals the error on `ClosedChan()` but emits no message at all. -/
theorem reader_errClosed_emits_no_message :
    (Reader.readLoop [((0 : Nat), some ⟨false, false, true⟩)]).1 = [] ∧
    (Reader.readLoop [((0 : Nat), some ⟨false, false, true⟩)]).2 =
      some ⟨false, false, true⟩ ∧
    ¬ ∃ m ∈ (Reader.readLoop [((0 : Nat), some ⟨false, false, true⟩)]).1,
        m.Error = some ⟨false, false, true⟩ := by
  refine ⟨rfl, rfl, ?_⟩
  decide

/-- C7 amended: a non-timeout error that does not match `net.ErrClosed` is
reported once via `Error` on the next emitted `Message`, and the Reader
then shuts down, signaling that error on `ClosedChan()` (no further reads
are delivered); a non-timeout `net.ErrClosed` error also shuts the Reader
down signaling on `ClosedChan()` but emits no message; a timeout error
emits no message and does not terminate — the loop continues; a successful
read emits its value with a nil error and the loop continues. -/
theorem reader_error_classification {R : Type} :
    (∀ (v : R) (g : goError) (rest : List (R × Option goError)),
      errTimedOut (some g) = false → g.isErrClosed = false →
      Reader.readLoop ((v, some g) :: rest) = ([⟨v, some g⟩], some g)) ∧
    (∀ (v : R) (g : goError) (rest : List (R × Option goError)),
      errTimedOut (some g) = false → g.isErrClosed = true →
      Reader.readLoop ((v, some g) :: rest) = ([], some g)) ∧
    (∀ (v : R) (g : goError) (rest : List (R × Option goError)),
      errTimedOut (some g) = true →
      Reader.readLoop ((v, some g) :: rest) = Reader.readLoop rest) ∧
    (∀ (v : R) (rest : List (R × Option goError)),
      Reader.readLoop ((v, none) :: rest) =
        (⟨v, none⟩ :: (Reader.readLoop rest).1, (Reader.readLoop rest).2)) := by
  refine ⟨?_, ?_, ?_, ?_⟩
  · intro v g rest ht hc
    simp [Reader.readLoop, ht, errIsClosed, hc]
  · intro v g rest ht hc
    simp [Reader.readLoop, ht, errIsClosed, hc]
  · intro v g rest ht
    simp [Reader.readLoop, ht]
  · intro v rest
    simp [Reader.readLoop, errTimedOut, errIsClosed]

/-- Witness for `reader_error_classification`: a terminal non-`ErrClosed`
error after the read of value `5` yields exactly one message carrying that
error, and the error on `ClosedChan()`; the queued-up later read is never
delivered. -/
theorem reader_error_classification_witness :
    errTimedOut (some ⟨false, false, false⟩) = false ∧
    (⟨false, false, false⟩ : goError).isErrClosed = false ∧
    Reader.readLoop [((5 : Nat), some ⟨false, false, false⟩), (6, none)] =
      ([⟨5, some ⟨false, false, false⟩⟩], some ⟨false, false, false⟩) :=
  ⟨rfl, rfl,
    (@reader_error_classification Nat).1 5 ⟨false, false, false⟩ [(6, none)] rfl rfl⟩

/-! ## FanIn.Add (fanin.go)

`Add` iterates over the supplied channels; a nil channel panics with
"Cannot add nil channels", a non-nil one is enqueued as an "add" command on
the control channel.  Channels are abstracted as identifiers of an
arbitrary type; a nil channel is `none`. -/

structure fanInCmd (Chan : Type) where
  Name : String
  AddedChannel : Option Chan
deriving DecidableEq, Repr

/-- `FanIn.Add` over the supplied list of (possibly nil) channels.
Returns the "add" commands enqueued on the control channel (in order,
including those enqueued before a panic) and the panic message, if any. -/
def FanIn.Add {Chan : Type} : List (Option Chan) → List (fanInCmd Chan) × Option String
  | [] => ([], none)
  | input :: rest =>
    match input with
    | none => ([], some "Cannot add nil channels")
    | some c =>
      let r := FanIn.Add rest
      (⟨"add", some c⟩ :: r.1, r.2)

/-- C9: `FanIn.Add` panics (with "Cannot add nil channels") if any supplied
input channel is nil, and otherwise enqueues exactly one "add" command per
input, in order, with no panic; failure is only ever a panic, never an
error value (the Go `Add` returns nothing and touches no error channel). -/
theorem fanIn_add_nil_panics_else_enqueues {Chan : Type}
    (inputs : List (Option Chan)) :
    ((∀ i ∈ inputs, i.isSome) →
      FanIn.Add inputs = (inputs.map (fun i => ⟨"add", i⟩), none)) ∧
    ((∃ i ∈ inputs, i = none) →
      (FanIn.Add inputs).2 = some "Cannot add nil channels") := by
  induction inputs with
  | nil =>
    exact ⟨fun _ => rfl, fun h => by simp at h⟩
  | cons x xs ih =>
    constructor
    · intro h
      match x with
      | none => simpa using h none (by simp)
      | some c =>
        have := ih.1 (fun i hi => h i (by simp [hi]))
        simp [FanIn.Add, this]
    · rintro ⟨i, hi, hnone⟩
      match x with
      | none => rfl
      | some c =>
        rw [List.mem_cons] at hi
        rcases hi with rfl | hi
        · simp at hnone
        · simp only [FanIn.Add]
          exact ih.2 ⟨i, hi, hnone⟩

/-- Witness for `fanIn_add_nil_panics_else_enqueues`: adding two non-nil
channels enqueues two "add" commands and no panic; adding a list containing
a nil channel panics. -/
theorem fanIn_add_nil_panics_else_enqueues_witness :
    (∀ i ∈ ([some 1, some 2] : List (Option Nat)), i.isSome) ∧
    FanIn.Add ([some 1, some 2] : List (Option Nat)) =
      (([some 1, some 2] : List (Option Nat)).map (fun i => ⟨"add", i⟩), none) ∧
    (∃ i ∈ ([some 1, none] : List (Option Nat)), i = none) ∧
    (FanIn.Add ([some 1, none] : List (Option Nat))).2 = some "Cannot add nil channels" :=
  ⟨by decide,
   (fanIn_add_nil_panics_else_enqueues [some 1, some 2]).1 (by decide),
   ⟨none, by simp, rfl⟩,
   (fanIn_add_nil_panics_else_enqueues [some 1, none]).2 ⟨none, by simp, rfl⟩⟩

/-! ## FanIn link removal (fanin.go)

`FanIn.removeAt` removes the link at `index` from `fi.inputs` by writing
the last element of the list over position `index` and truncating the list
by one (`fi.inputs[index] = fi.inputs[len-1]; fi.inputs = fi.inputs[:len-1]`).
`FanIn.remove` (used by `Remove`) and `FanIn.pipeClosed` (used when a
link's input channel closes) both scan the list front to back, call
`removeAt` on the first element matching their criterion and break; they
are modelled together with the match criterion as a predicate. -/

/-- `FanIn.removeAt`: swap the last list element into the removed slot and
drop the last slot. -/
def FanIn.removeAt (inputs : List α) (index : Nat) : List α :=
  match inputs.getLast? with
  | none => []
  | some z => (inputs.set index z).dropLast

/-- `FanIn.remove` / `FanIn.pipeClosed`: remove the first link matching `p`
(if any) via `removeAt`. -/
def FanIn.remove (p : α → Bool) (inputs : List α) : List α :=
  match inputs.findIdx? p with
  | none => inputs
  | some i => FanIn.removeAt inputs i

theorem set_append_len (xs : List α) (z m : α) (t : List α) :
    (xs ++ m :: t).set xs.length z = xs ++ z :: t := by
  induction xs with
  | nil => rfl
  | cons a as ih => simp [List.set, ih]

theorem findIdx?_first (p : α → Bool) (xs : List α) (m : α) (t : List α)
    (hxs : ∀ x ∈ xs, p x = false) (hm : p m = true) :
    (xs ++ m :: t).findIdx? p = some xs.length := by
  induction xs with
  | nil => simp [List.findIdx?_cons, hm]
  | cons a as ih =>
    have ha := hxs a (by simp)
    simp [List.findIdx?_cons, ha, ih fun x hx => hxs x (by simp [hx])]

theorem findIdx?_none_of_all (p : α → Bool) (l : List α)
    (h : ∀ x ∈ l, p x = false) : l.findIdx? p = none := by
  induction l with
  | nil => rfl
  | cons a as ih =>
    simp [List.findIdx?_cons, h a (by simp), ih fun x hx => h x (by simp [hx])]

/-- C10: removing a FanIn link (by explicit `Remove` or on upstream close)
removes exactly the first link matching the target by swapping the last
list element into its position: for a list `xs ++ m :: ys ++ [z]` whose
first match is `m`, the result is `xs ++ z :: ys` — the set of remaining
links is preserved (a permutation of the others), but the order of links
after the removed one is not (the last link `z` jumps into the hole).  If
the matched link is the last one, the rest of the list is untouched; if no
link matches, the list is unchanged. -/
theorem fanIn_remove_swaps_last_into_hole {α : Type} (p : α → Bool) :
    (∀ (xs ys : List α) (m z : α), (∀ x ∈ xs, p x = false) → p m = true →
      FanIn.remove p (xs ++ m :: (ys ++ [z])) = xs ++ z :: ys) ∧
    (∀ (xs : List α) (m : α), (∀ x ∈ xs, p x = false) → p m = true →
      FanIn.remove p (xs ++ [m]) = xs) ∧
    (∀ inputs : List α, (∀ x ∈ inputs, p x = false) →
      FanIn.remove p inputs = inputs) ∧
    (∀ (xs ys : List α) (m z : α), (∀ x ∈ xs, p x = false) → p m = true →
      (FanIn.remove p (xs ++ m :: (ys ++ [z]))).Perm (xs ++ ys ++ [z])) := by
  have h1 : ∀ (xs ys : List α) (m z : α), (∀ x ∈ xs, p x = false) → p m = true →
      FanIn.remove p (xs ++ m :: (ys ++ [z])) = xs ++ z :: ys := by
    intro xs ys m z hxs hm
    have hlast : (xs ++ m :: (ys ++ [z])).getLast? = some z := by
      rw [show xs ++ m :: (ys ++ [z]) = (xs ++ m :: ys) ++ [z] by simp]
      exact List.getLast?_concat _
    unfold FanIn.remove FanIn.removeAt
    rw [findIdx?_first p xs m (ys ++ [z]) hxs hm, hlast]
    show ((xs ++ m :: (ys ++ [z])).set xs.length z).dropLast = xs ++ z :: ys
    rw [set_append_len,
      show xs ++ z :: (ys ++ [z]) = (xs ++ z :: ys) ++ [z] by simp]
    exact List.dropLast_concat
  refine ⟨h1, ?_, ?_, ?_⟩
  · intro xs m hxs hm
    unfold FanIn.remove FanIn.removeAt
    rw [findIdx?_first p xs m [] hxs hm, List.getLast?_concat]
    show ((xs ++ [m]).set xs.length m).dropLast = xs
    rw [show xs ++ [m] = xs ++ m :: ([] : List α) from rfl, set_append_len]
    exact List.dropLast_concat
  · intro inputs h
    unfold FanIn.remove
    rw [findIdx?_none_of_all p inputs h]
  · intro xs ys m z hxs hm
    rw [h1 xs ys m z hxs hm, List.append_assoc]
    exact List.Perm.append_left xs (List.perm_append_singleton z ys).symm

/-- Witness for `fanIn_remove_swaps_last_into_hole`: removing the link
matching `2` from `[1, 2, 3, 4]` yields `[1, 4, 3]`. -/
theorem fanIn_remove_swaps_last_into_hole_witness :
    (∀ x ∈ ([1] : List Nat), (x == 2) = false) ∧ ((2 : Nat) == 2) = true ∧
    FanIn.remove (fun x => x == 2) (([1] : List Nat) ++ 2 :: ([3] ++ [4])) =
      [1] ++ 4 :: [3] :=
  ⟨by decide, rfl,
    (fanIn_remove_swaps_last_into_hole (fun x : Nat => x == 2)).1 [1] [3] 2 4
      (by decide) rfl⟩

/-! ## FanIn merge (fanin.go `start`, via per-input pipes)

Each "add" command makes FanIn spawn `NewPipe(added, fi.outChan)` — a
Mapper with `idMapperFunc` — so each attached input's traffic is copied
verbatim onto the shared output channel.  The runtime scheduler decides at
each step which pipe's pending head value is sent next; `Interleaves srcs
out` says the list `out` of values received on the merged output channel is
one such scheduling of the per-pipe output lists `srcs`. -/

inductive Interleaves : List (List α) → List α → Prop
  /-- all pipes have exhausted their traffic -/
  | done (srcs : List (List α)) : (∀ s ∈ srcs, s = []) → Interleaves srcs []
  /-- the scheduler lets pipe `i` deliver its next value `x` -/
  | step (srcs : List (List α)) (i : Nat) (x : α) (rest out : List α) :
      srcs.get? i = some (x :: rest) →
      Interleaves (srcs.set i rest) out →
      Interleaves srcs (x :: out)

theorem sum_lengths_set (srcs : List (List α)) (i : Nat) (x : α) (rest : List α)
    (h : srcs.get? i = some (x :: rest)) :
    ((srcs.set i rest).map List.length).sum + 1 = (srcs.map List.length).sum := by
  induction srcs generalizing i with
  | nil => simp at h
  | cons s ss ih =>
    cases i with
    | zero =>
      simp only [List.get?] at h
      cases h
      simp only [List.set, List.map_cons, List.sum_cons, List.length_cons]
      omega
    | succ n =>
      simp only [List.get?] at h
      have hih := ih n h
      simp only [List.set, List.map_cons, List.sum_cons]
      omega

theorem multiset_sum_set (srcs : List (List α)) (i : Nat) (x : α) (rest : List α)
    (h : srcs.get? i = some (x :: rest)) :
    x ::ₘ ((srcs.set i rest).map (fun l : List α => (l : Multiset α))).sum
      = (srcs.map (fun l : List α => (l : Multiset α))).sum := by
  induction srcs generalizing i with
  | nil => simp at h
  | cons s ss ih =>
    cases i with
    | zero =>
      simp only [List.get?] at h
      cases h
      simp [List.set, ← Multiset.cons_coe, Multiset.cons_add]
    | succ n =>
      simp only [List.get?] at h
      have hih := ih n h
      simp only [List.set, List.map_cons, List.sum_cons]
      rw [← Multiset.add_cons, hih]

theorem get?_set_same (l : List α) (i : Nat) (s a : α) (h : l.get? i = some s) :
    (l.set i a).get? i = some a := by
  induction l generalizing i with
  | nil => simp at h
  | cons x xs ih =>
    cases i with
    | zero => rfl
    | succ n => exact ih n (by simpa using h)

theorem get?_set_other (l : List α) (i j : Nat) (a : α) (hne : j ≠ i) :
    (l.set i a).get? j = l.get? j := by
  induction l generalizing i j with
  | nil => simp
  | cons x xs ih =>
    cases i with
    | zero =>
      cases j with
      | zero => exact absurd rfl hne
      | succ k => rfl
    | succ n =>
      cases j with
      | zero => rfl
      | succ k => exact ih n k fun hk => hne (by rw [hk])

theorem Interleaves.length_eq {srcs : List (List α)} {out : List α}
    (h : Interleaves srcs out) : out.length = (srcs.map List.length).sum := by
  induction h with
  | done srcs hall =>
    symm
    apply List.sum_eq_zero
    intro n hn
    rcases List.mem_map.mp hn with ⟨s, hs, rfl⟩
    rw [hall s hs]
    rfl
  | step srcs i x rest out hget hrec ih =>
    rw [List.length_cons, ih, sum_lengths_set srcs i x rest hget]

theorem Interleaves.multiset_eq {srcs : List (List α)} {out : List α}
    (h : Interleaves srcs out) :
    (out : Multiset α) = (srcs.map (fun l : List α => (l : Multiset α))).sum := by
  induction h with
  | done srcs hall =>
    symm
    apply List.sum_eq_zero
    intro m hm
    obtain ⟨s, hs, heq⟩ := List.mem_map.mp hm
    rw [← heq, hall s hs]
    rfl
  | step srcs i x rest out hget hrec ih =>
    rw [← Multiset.cons_coe, ih, multiset_sum_set srcs i x rest hget]

theorem Interleaves.source_sublist {srcs : List (List α)} {out : List α}
    (h : Interleaves srcs out) :
    ∀ (i : Nat) (s : List α), srcs.get? i = some s → s.Sublist out := by
  induction h with
  | done srcs hall =>
    intro i s hs
    rw [hall s (List.get?_mem hs)]
  | step srcs i x rest out hget hrec ih =>
    intro j s hs
    by_cases hji : j = i
    · subst hji
      rw [hget] at hs
      cases hs
      exact (ih j rest (get?_set_same srcs j _ rest hget)).cons₂ x
    · exact (ih j s (by rw [get?_set_other srcs i j rest hji]; exact hs)).cons x

/-- C3: for a FanIn whose attached inputs deliver the traffic lists `srcs`,
each copied verbatim to the merged output by its own `idMapperFunc` pipe,
any scheduling of the merged output yields exactly `Σ Mi` values, with
every value appearing with the multiplicity it was sent (equal multisets),
and each source's values appearing in their source order (each source list
is a sublist of the output); no cross-source order is imposed beyond the
chosen interleaving. -/
theorem map_mapper_start_id (srcs : List (List α)) :
    srcs.map (Mapper.start idMapperFunc) = srcs := by
  induction srcs with
  | nil => rfl
  | cons s ss ih => simp [Mapper.start_idMapperFunc, ih]

theorem fanIn_merge_preserves_messages {α : Type} (srcs : List (List α))
    (out : List α)
    (h : Interleaves (srcs.map (Mapper.start idMapperFunc)) out) :
    out.length = (srcs.map List.length).sum ∧
    (out : Multiset α) = (srcs.map (fun l : List α => (l : Multiset α))).sum ∧
    (∀ (i : Nat) (s : List α), srcs.get? i = some s → s.Sublist out) := by
  rw [map_mapper_start_id] at h
  exact ⟨h.length_eq, h.multiset_eq, h.source_sublist⟩

/-- Witness for `fanIn_merge_preserves_messages`: sources `[1,2]` and `[3]`
merged in the order `[1,3,2]` — three values, right multiplicities, and
`1` before `2` as in their source. -/
theorem fanIn_merge_preserves_messages_witness :
    Interleaves (([[1, 2], [3]] : List (List Nat)).map (Mapper.start idMapperFunc))
      [1, 3, 2] ∧
    ([1, 3, 2] : List Nat).length = (([[1, 2], [3]] : List (List Nat)).map List.length).sum ∧
    (([1, 3, 2] : List Nat) : Multiset Nat) =
      (([[1, 2], [3]] : List (List Nat)).map (fun l : List Nat => (l : Multiset Nat))).sum ∧
    (∀ (i : Nat) (s : List Nat),
      ([[1, 2], [3]] : List (List Nat)).get? i = some s → s.Sublist [1, 3, 2]) := by
  have hm : Interleaves
      (([[1, 2], [3]] : List (List Nat)).map (Mapper.start idMapperFunc)) [1, 3, 2] := by
    rw [map_mapper_start_id]
    exact .step _ 0 1 [2] _ rfl
      (.step _ 1 3 [] _ rfl
        (.step _ 0 2 [] _ rfl
          (.done _ (by decide))))
  have hc := fanIn_merge_preserves_messages [[1, 2], [3]] [1, 3, 2] hm
  exact ⟨hm, hc.1, hc.2.1, hc.2.2⟩

end GoCurrent
